import Mathlib

/-!
Verification of the AST layer of saashard's `sqlparser/ast.go`.

The Go file defines the SQL AST node hierarchy, the canonical serializer
(the `Format` methods writing into a `TrackedBuffer`), the identifier
quoting helper `escape`, the guarded factory `NewWhere`, and the LIMIT
normalization rewrite `Limit.RewriteLimit`.

Each `Format` method only ever appends text to the buffer and records
bind-variable names through the buffer's `WriteArg` sink, so a `Format`
call is embedded as the pair of the text it appends and the list of
bind-variable names it records (`Out` below).  The single partial
operation in the whole serializer is `ValArg.Format`'s slice `node[1:]`,
which panics in Go when the stored text is empty; formatting functions
that can reach a `ValArg` therefore return `Option Out`, with `none`
modelling that panic.  Formatting functions that cannot fail are plain
functions into `Out` or `String`.

Go `[]byte` fields hold identifier or literal text and are embedded as
`String`; Go `nil` pointers/slices/interface values that the code tests
for are embedded as `Option`.
-/

namespace Saashard

/-- Modelled from the spec: `TrackedBuffer` (tracked_buffer.go) is not under
src/.  The spec describes rendering as appending to an append-only output
buffer, with bind-variable references recorded through a dedicated sink that
exposes the ordered list of referenced names alongside the text.  One
`Format` call is therefore embedded as the text it appends paired with the
ordered list of bind-variable names it records. -/
abbrev Out := String × List String

/-- Joins a list of strings with a separator: no leading or trailing
separator.  Statement vocabulary for the separator claims. -/
def sepJoin (sep : String) : List String → String
  | [] => ""
  | [t] => t
  | t :: rest => t ++ sep ++ sepJoin sep rest

/-- The shape produced by the Go list-`Format` loops: nothing for an empty
list, otherwise a leading prefix followed by the element texts joined with
the separator, with the element argument lists concatenated in order. -/
def prefJoin (pre sep : String) : List Out → Out
  | [] => ("", [])
  | o :: rest => (pre ++ sepJoin sep (o.1 :: rest.map Prod.fst), o.2 ++ (rest.map Prod.snd).flatten)

/-- Renders every element of a list in order, failing if any element fails. -/
def collectOuts (f : α → Option Out) : List α → Option (List Out)
  | [] => some []
  | e :: rest =>
    match f e, collectOuts f rest with
    | some o, some l => some (o :: l)
    | _, _ => none

/-- Each element's text followed by a fixed suffix, in order; arguments
concatenated in order.  Statement vocabulary for the CASE/WHEN claim. -/
def termJoin (suf : String) : List Out → Out
  | [] => ("", [])
  | o :: rest => (o.1 ++ suf ++ (termJoin suf rest).1, o.2 ++ (termJoin suf rest).2)

/-- The Go loop pattern `prefix; emit; prefix = sep` over plain strings, as
used by `IndexHints.Format` and `SpaceSplitExprs.Format`. -/
def strLoop (pre sep : String) : List String → String
  | [] => ""
  | s :: rest => pre ++ s ++ strLoop sep sep rest

/-- The error text of Go's `strconv.ParseInt` on a syntactically invalid
base-10 input. -/
def parseIntSyntaxErr (s : String) : String :=
  "strconv.ParseInt: parsing \"" ++ s ++ "\": invalid syntax"

/-- The error text of Go's `strconv.ParseInt` on an input outside the signed
64-bit range. -/
def parseIntRangeErr (s : String) : String :=
  "strconv.ParseInt: parsing \"" ++ s ++ "\": value out of range"

/-- Go's `strconv.ParseInt(s, 10, 64)` (standard library, external to the
repository): an optional `+`/`-` sign followed by at least one decimal
digit; a value outside `[-2^63, 2^63-1]` is a range error, anything else
non-conforming is a syntax error. -/
def parseInt64 (s : String) : Except String Int :=
  let signed : Bool × List Char :=
    match s.data with
    | '-' :: rest => (true, rest)
    | '+' :: rest => (false, rest)
    | l => (false, l)
  match signed with
  | (neg, digits) =>
    if digits.isEmpty then Except.error (parseIntSyntaxErr s)
    else if digits.all (fun c => '0' ≤ c && c ≤ '9') then
      let mag : Nat := digits.foldl (fun acc c => acc * 10 + (c.toNat - 48)) 0
      let v : Int := if neg then -(mag : Int) else (mag : Int)
      if v < -(2 ^ 63) ∨ (2 ^ 63 - 1 : Int) < v then Except.error (parseIntRangeErr s)
      else Except.ok v
    else Except.error (parseIntSyntaxErr s)

/-- Go `int64` addition wraps around in two's complement; `wrap64` reduces a
mathematical integer into the signed 64-bit range the way the machine
addition in `RewriteLimit` does. -/
def wrap64 (x : Int) : Int := (x + 2 ^ 63) % 2 ^ 64 - 2 ^ 63

/-- Go's `strconv.FormatInt(v, 10)`: the decimal text of a signed integer. -/
def formatInt (v : Int) : String := toString v

/-- Modelled from the spec: the reserved-keyword table (`keywords` in
token.go) is not under src/.  The spec's Keyword Classifier is a fixed,
case-sensitive, exact-match set of MySQL dialect keywords, and its quoting
examples require both `order` and `SELECT` to be reserved, so the dialect's
reserved words are listed in their lower-case spellings here and in their
upper-case spellings in `keywordsUpper`. -/
def keywordsLower : List String :=
  ["accessible", "add", "all", "alter", "and", "as", "asc", "between", "by",
   "case", "create", "cross", "database", "databases", "default", "delete",
   "desc", "describe", "distinct", "drop", "duplicate", "else", "end",
   "exists", "explain", "for", "force", "from", "group", "having", "if",
   "ignore", "in", "index", "insert", "into", "is", "join", "key", "left",
   "like", "limit", "lock", "natural", "not", "null", "on", "or", "order",
   "outer", "replace", "right", "select", "set", "show", "straight_join",
   "table", "then", "to", "union", "unique", "update", "use", "using",
   "values", "when", "where"]

/-- Modelled from the spec: the upper-case spellings of the reserved words
(see `keywordsLower`). -/
def keywordsUpper : List String :=
  ["ACCESSIBLE", "ADD", "ALL", "ALTER", "AND", "AS", "ASC", "BETWEEN", "BY",
   "CASE", "CREATE", "CROSS", "DATABASE", "DATABASES", "DEFAULT", "DELETE",
   "DESC", "DESCRIBE", "DISTINCT", "DROP", "DUPLICATE", "ELSE", "END",
   "EXISTS", "EXPLAIN", "FOR", "FORCE", "FROM", "GROUP", "HAVING", "IF",
   "IGNORE", "IN", "INDEX", "INSERT", "INTO", "IS", "JOIN", "KEY", "LEFT",
   "LIKE", "LIMIT", "LOCK", "NATURAL", "NOT", "NULL", "ON", "OR", "ORDER",
   "OUTER", "REPLACE", "RIGHT", "SELECT", "SET", "SHOW", "STRAIGHT_JOIN",
   "TABLE", "THEN", "TO", "UNION", "UNIQUE", "UPDATE", "USE", "USING",
   "VALUES", "WHEN", "WHERE"]

/-- Modelled from the spec: the keyword set consulted by `escape`, case
sensitively and by exact match. -/
def keywords : List String := keywordsLower ++ keywordsUpper

/-- Modelled from the spec: token.go's `isLetter` is not under src/.  The
spec's identifier class is the ASCII set `[A-Za-z0-9_]`; the letter part
(including the underscore, which the class admits) is tested here. -/
def isLetter (ch : Char) : Bool :=
  ('a' ≤ ch && ch ≤ 'z') || ('A' ≤ ch && ch ≤ 'Z') || ch == '_'

/-- Modelled from the spec: token.go's `isDigit` is not under src/; the
ASCII digit test of the spec's identifier class. -/
def isDigit (ch : Char) : Bool := '0' ≤ ch && ch ≤ '9'

/-- The spec's quoting character class `[A-Za-z0-9_]`, spelled directly.
Statement vocabulary for the quoting claim. -/
def inIdentClass (c : Char) : Bool :=
  ('A' ≤ c && c ≤ 'Z') || ('a' ≤ c && c ≤ 'z') || ('0' ≤ c && c ≤ '9') || c == '_'

/-- `escape` from ast.go: back-quote an identifier when it is a reserved
keyword, or when some character is neither a letter nor a digit; otherwise
emit it bare. -/
def escape (name : String) : String :=
  if keywords.contains name then "`" ++ name ++ "`"
  else
    if name.data.any (fun ch => !(isLetter ch) && !(isDigit ch)) then "`" ++ name ++ "`"
    else name

/-- Modelled from the spec: the literal encoder (`sqltypes.MakeString` /
`EncodeSQL`) is external to this repository.  The spec requires it to
produce a single SQL string literal, quoting the value and escaping embedded
quotes and control bytes; `StrVal.Format` splices its result verbatim. -/
def encodeSQLChar (c : Char) : String :=
  if c == '\'' then "\\'"
  else if c == '\\' then "\\\\"
  else String.singleton c

/-- Modelled from the spec: the SQL string-literal encoding of a raw value
(see `encodeSQLChar`). -/
def encodeSQLString (s : String) : String :=
  "'" ++ String.join (s.data.map encodeSQLChar) ++ "'"

/-- Modelled from the spec: concrete `Statement` variants are produced by the
external grammar and are not detailed by the spec nor present in ast.go; a
statement is embedded as a node carrying its rendered text. -/
structure SelectStatement where
  rendered : String

/-- `Subquery` from ast.go: a parenthesized select statement. -/
structure Subquery where
  sel : SelectStatement

/-- `ColName` from ast.go: a column name with an optional qualifier
(`Qualifier` is `nil` when absent). -/
structure ColName where
  name : String
  qualifier : Option String

mutual
/-- The `BoolExpr` family of ast.go: the eight variants carrying the
`IBoolExpr` capability tag. -/
inductive BoolExpr where
  | andExpr (left right : BoolExpr)
  | orExpr (left right : BoolExpr)
  | notExpr (expr : BoolExpr)
  | parenBoolExpr (expr : BoolExpr)
  | comparisonExpr (op : String) (left right : ValExpr)
  | rangeCond (op : String) (left lo hi : ValExpr)
  | nullCheck (op : String) (expr : ValExpr)
  | existsExpr (sub : Subquery)

/-- The `ValExpr` family of ast.go: the eleven variants carrying the
`IValExpr` capability tag. -/
inductive ValExpr where
  | strVal (val : String)
  | numVal (val : String)
  | valArg (val : String)
  | nullVal
  | colName (col : ColName)
  | valTuple (exprs : List ValExpr)
  | subquery (sub : Subquery)
  | binaryExpr (op : Char) (left right : Expr)
  | unaryExpr (op : Char) (expr : Expr)
  | funcExpr (name : String) (isDistinct : Bool) (exprs : List ValExpr)
  | caseExpr (expr : Option ValExpr) (whens : List When) (elseVal : Option ValExpr)

/-- The `Expr` family of ast.go: every `BoolExpr`, every `ValExpr`, and the
two variants (`LikeExpr`, `WhereExpr`) that are `Expr` only. -/
inductive Expr where
  | boolE (b : BoolExpr)
  | valE (v : ValExpr)
  | likeExpr (expr : ValExpr)
  | whereExpr (expr : BoolExpr)

/-- `When` from ast.go: one WHEN/THEN arm of a CASE expression. -/
inductive When where
  | mk (cond : BoolExpr) (val : ValExpr)
end

/-- `IndexHints` from ast.go. -/
structure IndexHints where
  type : String
  indexes : List String

/-- The `SimpleTableExpr` family of ast.go: a table name or a subquery. -/
inductive SimpleTableExpr where
  | tableName (name : String) (qualifier : Option String)
  | subquery (sub : Subquery)

/-- The `TableExpr` family of ast.go: aliased, parenthesized, and join
table expressions (`On` is `nil` when absent). -/
inductive TableExpr where
  | aliased (expr : SimpleTableExpr) (asName : Option String) (hints : Option IndexHints)
  | paren (expr : TableExpr)
  | join (left : TableExpr) (joinType : String) (right : TableExpr) (onCond : Option BoolExpr)

/-- The `SelectExpr` family of ast.go: `StarExpr` (with its optional raw
table-name qualifier) or `NonStarExpr`. -/
inductive SelectExpr where
  | star (tableName : Option String)
  | nonStar (expr : Expr) (asName : Option String)

/-- `Where` from ast.go: a WHERE or HAVING clause. -/
structure Where where
  type : String
  expr : BoolExpr

/-- `Order` from ast.go: one ordering expression. -/
structure Order where
  expr : ValExpr
  direction : String

/-- `Limit` from ast.go: `Offset` is `nil` when absent, `Rowcount` is always
present in a validly constructed node. -/
structure Limit where
  offset : Option ValExpr
  rowcount : ValExpr

/-- `UpdateExpr` from ast.go: one `col = expr` assignment. -/
structure UpdateExpr where
  name : ColName
  expr : ValExpr

/-- `SpaceSplitExpr` from ast.go. -/
structure SpaceSplitExpr where
  name : String
  expr : String

/-- The `Tuple` family of ast.go: `ValTuple` or `Subquery`. -/
inductive TupleT where
  | valTuple (exprs : List ValExpr)
  | subquery (sub : Subquery)

/-- `Subquery.Format`: `(%v)` around the select statement. -/
def formatSubquery (sq : Subquery) : String := "(" ++ sq.sel.rendered ++ ")"

/-- `TableName.Format`: the optional qualifier and the name, each escaped,
joined by a literal dot. -/
def formatTableName (name : String) (qualifier : Option String) : String :=
  (match qualifier with
   | some q => escape q ++ "."
   | none => "") ++ escape name

/-- `ColName.Format`: the optional qualifier and the name, each escaped,
joined by a literal dot. -/
def formatColName (c : ColName) : String :=
  (match c.qualifier with
   | some q => escape q ++ "."
   | none => "") ++ escape c.name

mutual
/-- The `Format` methods of the `BoolExpr` variants. -/
def formatBoolExpr : BoolExpr → Option Out
  | .andExpr l r =>
    match formatBoolExpr l, formatBoolExpr r with
    | some a, some b => some (a.1 ++ " and " ++ b.1, a.2 ++ b.2)
    | _, _ => none
  | .orExpr l r =>
    match formatBoolExpr l, formatBoolExpr r with
    | some a, some b => some (a.1 ++ " or " ++ b.1, a.2 ++ b.2)
    | _, _ => none
  | .notExpr e =>
    match formatBoolExpr e with
    | some a => some ("not " ++ a.1, a.2)
    | none => none
  | .parenBoolExpr e =>
    match formatBoolExpr e with
    | some a => some ("(" ++ a.1 ++ ")", a.2)
    | none => none
  | .comparisonExpr op l r =>
    match formatValExpr l, formatValExpr r with
    | some a, some b => some (a.1 ++ " " ++ op ++ " " ++ b.1, a.2 ++ b.2)
    | _, _ => none
  | .rangeCond op l lo hi =>
    match formatValExpr l, formatValExpr lo, formatValExpr hi with
    | some a, some b, some c =>
      some (a.1 ++ " " ++ op ++ " " ++ b.1 ++ " and " ++ c.1, a.2 ++ b.2 ++ c.2)
    | _, _, _ => none
  | .nullCheck op e =>
    match formatValExpr e with
    | some a => some (a.1 ++ " " ++ op, a.2)
    | none => none
  | .existsExpr sq => some ("exists " ++ formatSubquery sq, [])

/-- The `Format` methods of the `ValExpr` variants.  `ValArg.Format` slices
off the first byte of the stored text and records the remainder through the
`WriteArg` sink; on an empty stored text the Go slice `node[1:]` panics,
embedded as `none`. -/
def formatValExpr : ValExpr → Option Out
  | .strVal s => some (encodeSQLString s, [])
  | .numVal s => some (s, [])
  | .valArg s =>
    match s.data with
    | [] => none
    | _ :: rest => some ("", [String.mk rest])
  | .nullVal => some ("null", [])
  | .colName c => some (formatColName c, [])
  | .valTuple es =>
    match formatValExprList "" es with
    | some a => some ("(" ++ a.1 ++ ")", a.2)
    | none => none
  | .subquery sq => some (formatSubquery sq, [])
  | .binaryExpr op l r =>
    match formatExpr l, formatExpr r with
    | some a, some b => some (a.1 ++ String.singleton op ++ b.1, a.2 ++ b.2)
    | _, _ => none
  | .unaryExpr op e =>
    match formatExpr e with
    | some a => some (String.singleton op ++ a.1, a.2)
    | none => none
  | .funcExpr name isDistinct es =>
    match formatValExprList "" es with
    | some a =>
      some (name ++ "(" ++ (if isDistinct then "distinct " else "") ++ a.1 ++ ")", a.2)
    | none => none
  | .caseExpr eo whens elseO =>
    match formatCaseOperand eo, formatWhenList whens, formatCaseElse elseO with
    | some a, some w, some b => some ("case " ++ a.1 ++ w.1 ++ b.1 ++ "end", a.2 ++ w.2 ++ b.2)
    | _, _, _ => none

/-- The simple-case operand of `CaseExpr.Format`: the operand plus a space
when `Expr` is present, nothing otherwise. -/
def formatCaseOperand : Option ValExpr → Option Out
  | none => some ("", [])
  | some e =>
    match formatValExpr e with
    | some a => some (a.1 ++ " ", a.2)
    | none => none

/-- The else part of `CaseExpr.Format`: `else <value> ` when `Else` is
present, nothing otherwise. -/
def formatCaseElse : Option ValExpr → Option Out
  | none => some ("", [])
  | some e =>
    match formatValExpr e with
    | some a => some ("else " ++ a.1 ++ " ", a.2)
    | none => none

/-- The `Format` methods of the `Expr`-only variants, and dispatch into the
two subfamilies. -/
def formatExpr : Expr → Option Out
  | .boolE b => formatBoolExpr b
  | .valE v => formatValExpr v
  | .likeExpr v =>
    match formatValExpr v with
    | some a => some (" like " ++ a.1, a.2)
    | none => none
  | .whereExpr b =>
    match formatBoolExpr b with
    | some a => some (" where " ++ a.1, a.2)
    | none => none

/-- `When.Format`: `when <cond> then <val>`. -/
def formatWhen : When → Option Out
  | .mk c v =>
    match formatBoolExpr c, formatValExpr v with
    | some a, some b => some ("when " ++ a.1 ++ " then " ++ b.1, a.2 ++ b.2)
    | _, _ => none

/-- The loop of `CaseExpr.Format` over the WHEN arms: each arm followed by a
single space, in order. -/
def formatWhenList : List When → Option Out
  | [] => some ("", [])
  | w :: rest =>
    match formatWhen w, formatWhenList rest with
    | some a, some b => some (a.1 ++ " " ++ b.1, a.2 ++ b.2)
    | _, _ => none

/-- The `ValExprs.Format` loop: the running prefix starts as `pre` and
becomes `", "` after the first element. -/
def formatValExprList (pre : String) : List ValExpr → Option Out
  | [] => some ("", [])
  | e :: rest =>
    match formatValExpr e, formatValExprList ", " rest with
    | some a, some b => some (pre ++ a.1 ++ b.1, a.2 ++ b.2)
    | _, _ => none
end

/-- `ValExprs.Format` as called on a whole list: the loop starts with an
empty prefix. -/
def formatValExprs (es : List ValExpr) : Option Out := formatValExprList "" es

/-- `GroupBy.Format`: the loop's first prefix is the clause prefix
`" group by "`, so an empty group-by renders nothing. -/
def formatGroupBy (es : List ValExpr) : Option Out := formatValExprList " group by " es

/-- `IndexHints.Format`. -/
def formatIndexHints (h : IndexHints) : String :=
  " " ++ h.type ++ " index " ++ strLoop "(" ", " h.indexes ++ ")"

/-- `SimpleTableExpr` dispatch: both variants append pure text. -/
def formatSimpleTableExpr : SimpleTableExpr → String
  | .tableName n q => formatTableName n q
  | .subquery sq => formatSubquery sq

/-- The `" on %v"` tail of `JoinTableExpr.Format`, emitted only when `On`
is present. -/
def formatOnOpt : Option BoolExpr → Option Out
  | none => some ("", [])
  | some b =>
    match formatBoolExpr b with
    | some a => some (" on " ++ a.1, a.2)
    | none => none

mutual
/-- The `Format` methods of the `TableExpr` variants. -/
def formatTableExpr : TableExpr → Option Out
  | .aliased e aliasO hintsO =>
    some (formatSimpleTableExpr e ++
            (match aliasO with
             | some a => " as " ++ a
             | none => "") ++
            (match hintsO with
             | some h => formatIndexHints h
             | none => ""), [])
  | .paren e =>
    match formatTableExpr e with
    | some a => some ("(" ++ a.1 ++ ")", a.2)
    | none => none
  | .join l js r onO =>
    match formatTableExpr l, formatTableExpr r, formatOnOpt onO with
    | some a, some b, some c => some (a.1 ++ " " ++ js ++ " " ++ b.1 ++ c.1, a.2 ++ b.2 ++ c.2)
    | _, _, _ => none

/-- The `TableExprs.Format` loop. -/
def formatTableExprList (pre : String) : List TableExpr → Option Out
  | [] => some ("", [])
  | e :: rest =>
    match formatTableExpr e, formatTableExprList ", " rest with
    | some a, some b => some (pre ++ a.1 ++ b.1, a.2 ++ b.2)
    | _, _ => none
end

/-- `TableExprs.Format` as called on a whole list. -/
def formatTableExprs (es : List TableExpr) : Option Out := formatTableExprList "" es

/-- The `Format` methods of the `SelectExpr` variants.  `StarExpr.Format`
emits the qualifier bytes verbatim (no `escape`) followed by `.*`. -/
def formatSelectExpr : SelectExpr → Option Out
  | .star q =>
    some ((match q with
           | some t => t ++ "."
           | none => "") ++ "*", [])
  | .nonStar e aliasO =>
    match formatExpr e with
    | some a =>
      some (a.1 ++
              (match aliasO with
               | some s => " as " ++ s
               | none => ""), a.2)
    | none => none

/-- The `SelectExprs.Format` loop. -/
def formatSelectExprList (pre : String) : List SelectExpr → Option Out
  | [] => some ("", [])
  | e :: rest =>
    match formatSelectExpr e, formatSelectExprList ", " rest with
    | some a, some b => some (pre ++ a.1 ++ b.1, a.2 ++ b.2)
    | _, _ => none

/-- `SelectExprs.Format` as called on a whole list. -/
def formatSelectExprs (es : List SelectExpr) : Option Out := formatSelectExprList "" es

/-- `Columns.Format`: nothing for a nil column list, otherwise the select
expressions in parentheses. -/
def formatColumns : Option (List SelectExpr) → Option Out
  | none => some ("", [])
  | some cols =>
    match formatSelectExprList "" cols with
    | some a => some ("(" ++ a.1 ++ ")", a.2)
    | none => none

/-- `Comments.Format`: each comment followed by a space. -/
def formatComments : List String → String
  | [] => ""
  | c :: rest => c ++ " " ++ formatComments rest

/-- `ColNames.Format`: column names joined with a bare comma. -/
def formatColNames : List ColName → String
  | [] => ""
  | c :: rest => formatColName c ++ strLoop "," "," ((rest.map formatColName))

/-- The `Format` methods of the `Tuple` variants. -/
def formatTuple : TupleT → Option Out
  | .valTuple es =>
    match formatValExprList "" es with
    | some a => some ("(" ++ a.1 ++ ")", a.2)
    | none => none
  | .subquery sq => some (formatSubquery sq, [])

/-- The `Values.Format` loop: the first prefix is `"values "`. -/
def formatTupleList (pre : String) : List TupleT → Option Out
  | [] => some ("", [])
  | t :: rest =>
    match formatTuple t, formatTupleList ", " rest with
    | some a, some b => some (pre ++ a.1 ++ b.1, a.2 ++ b.2)
    | _, _ => none

/-- `Values.Format` as called on a whole list. -/
def formatValues (vs : List TupleT) : Option Out := formatTupleList "values " vs

/-- `Order.Format`: the expression, a space, and the direction. -/
def formatOrder (o : Order) : Option Out :=
  match formatValExpr o.expr with
  | some a => some (a.1 ++ " " ++ o.direction, a.2)
  | none => none

/-- The `OrderBy.Format` loop. -/
def formatOrderList (pre : String) : List Order → Option Out
  | [] => some ("", [])
  | o :: rest =>
    match formatOrder o, formatOrderList ", " rest with
    | some a, some b => some (pre ++ a.1 ++ b.1, a.2 ++ b.2)
    | _, _ => none

/-- `OrderBy.Format` as called on a whole list: the first prefix is the
clause prefix `" order by "`. -/
def formatOrderBy (os : List Order) : Option Out := formatOrderList " order by " os

/-- `NewWhere` from ast.go: the guarded factory returns no node at all when
the expression is absent. -/
def newWhere (typ : String) (expr : Option BoolExpr) : Option Where :=
  match expr with
  | none => none
  | some e => some ⟨typ, e⟩

/-- `Where.Format`: nothing for a nil node, otherwise a leading space, the
clause keyword, a space, and the expression. -/
def formatWhereOpt : Option Where → Option Out
  | none => some ("", [])
  | some w =>
    match formatBoolExpr w.expr with
    | some a => some (" " ++ w.type ++ " " ++ a.1, a.2)
    | none => none

/-- `Limit.Format`: nothing for a nil node, otherwise `" limit "`, the
offset followed by `", "` when present, and the row count. -/
def formatLimitOpt : Option Limit → Option Out
  | none => some ("", [])
  | some l =>
    match l.offset with
    | none =>
      match formatValExpr l.rowcount with
      | some b => some (" limit " ++ b.1, b.2)
      | none => none
    | some off =>
      match formatValExpr off, formatValExpr l.rowcount with
      | some a, some b => some (" limit " ++ a.1 ++ ", " ++ b.1, a.2 ++ b.2)
      | _, _ => none

/-- `UpdateExpr.Format`: `<col> = <expr>`. -/
def formatUpdateExpr (u : UpdateExpr) : Option Out :=
  match formatValExpr u.expr with
  | some a => some (formatColName u.name ++ " = " ++ a.1, a.2)
  | none => none

/-- The `UpdateExprs.Format` loop. -/
def formatUpdateExprList (pre : String) : List UpdateExpr → Option Out
  | [] => some ("", [])
  | u :: rest =>
    match formatUpdateExpr u, formatUpdateExprList ", " rest with
    | some a, some b => some (pre ++ a.1 ++ b.1, a.2 ++ b.2)
    | _, _ => none

/-- `UpdateExprs.Format` as called on a whole list. -/
def formatUpdateExprs (us : List UpdateExpr) : Option Out := formatUpdateExprList "" us

/-- `OnDup.Format`: nothing for a nil node, otherwise the clause prefix
`" on duplicate key update "` followed by the update expressions. -/
def formatOnDup : Option (List UpdateExpr) → Option Out
  | none => some ("", [])
  | some us =>
    match formatUpdateExprList "" us with
    | some a => some (" on duplicate key update " ++ a.1, a.2)
    | none => none

/-- `SpaceSplitExpr.Format`: `<name> <expr>`. -/
def formatSpaceSplitExpr (e : SpaceSplitExpr) : String := e.name ++ " " ++ e.expr

/-- The `SpaceSplitExprs.Format` loop: elements joined with a single
space. -/
def formatSpaceSplitExprList (pre : String) : List SpaceSplitExpr → String
  | [] => ""
  | e :: rest => pre ++ formatSpaceSplitExpr e ++ formatSpaceSplitExprList " " rest

/-- `SpaceSplitExprs.Format` as called on a whole list. -/
def formatSpaceSplitExprs (es : List SpaceSplitExpr) : String := formatSpaceSplitExprList "" es

/-- The construction-time invariant of a `ValArg`: its stored text begins
with the `:` marker byte. -/
def validValArg (s : String) : Bool :=
  match s.data with
  | c :: _ => c == ':'
  | [] => false

mutual
/-- Every `ValArg` under a `BoolExpr` carries its `:` marker. -/
def validBoolExpr : BoolExpr → Bool
  | .andExpr l r => validBoolExpr l && validBoolExpr r
  | .orExpr l r => validBoolExpr l && validBoolExpr r
  | .notExpr e => validBoolExpr e
  | .parenBoolExpr e => validBoolExpr e
  | .comparisonExpr _ l r => validValExpr l && validValExpr r
  | .rangeCond _ l lo hi => validValExpr l && validValExpr lo && validValExpr hi
  | .nullCheck _ e => validValExpr e
  | .existsExpr _ => true

/-- Every `ValArg` under a `ValExpr` carries its `:` marker. -/
def validValExpr : ValExpr → Bool
  | .strVal _ => true
  | .numVal _ => true
  | .valArg s => validValArg s
  | .nullVal => true
  | .colName _ => true
  | .valTuple es => validValExprList es
  | .subquery _ => true
  | .binaryExpr _ l r => validExpr l && validExpr r
  | .unaryExpr _ e => validExpr e
  | .funcExpr _ _ es => validValExprList es
  | .caseExpr eo whens elseO => validValExprOpt eo && validWhenList whens && validValExprOpt elseO

/-- Every `ValArg` under an `Expr` carries its `:` marker. -/
def validExpr : Expr → Bool
  | .boolE b => validBoolExpr b
  | .valE v => validValExpr v
  | .likeExpr v => validValExpr v
  | .whereExpr b => validBoolExpr b

/-- Every `ValArg` under a `When` carries its `:` marker. -/
def validWhen : When → Bool
  | .mk c v => validBoolExpr c && validValExpr v

/-- Every `ValArg` under a list of `When`s carries its `:` marker. -/
def validWhenList : List When → Bool
  | [] => true
  | w :: rest => validWhen w && validWhenList rest

/-- Every `ValArg` under a list of `ValExpr`s carries its `:` marker. -/
def validValExprList : List ValExpr → Bool
  | [] => true
  | e :: rest => validValExpr e && validValExprList rest

/-- Every `ValArg` under an optional `ValExpr` carries its `:` marker. -/
def validValExprOpt : Option ValExpr → Bool
  | none => true
  | some e => validValExpr e
end

/-- Every `ValArg` under an optional `BoolExpr` carries its `:` marker. -/
def validBoolOpt : Option BoolExpr → Bool
  | none => true
  | some b => validBoolExpr b

mutual
/-- Every `ValArg` under a `TableExpr` carries its `:` marker. -/
def validTableExpr : TableExpr → Bool
  | .aliased _ _ _ => true
  | .paren e => validTableExpr e
  | .join l _ r onO => validTableExpr l && validTableExpr r && validBoolOpt onO

/-- Every `ValArg` under a list of `TableExpr`s carries its `:` marker. -/
def validTableExprList : List TableExpr → Bool
  | [] => true
  | e :: rest => validTableExpr e && validTableExprList rest
end

/-- Every `ValArg` under a `SelectExpr` carries its `:` marker. -/
def validSelectExpr : SelectExpr → Bool
  | .star _ => true
  | .nonStar e _ => validExpr e

/-- Every `ValArg` under a list of `SelectExpr`s carries its `:` marker. -/
def validSelectExprList : List SelectExpr → Bool
  | [] => true
  | e :: rest => validSelectExpr e && validSelectExprList rest

/-- Every `ValArg` under an optional column list carries its `:` marker. -/
def validColumns : Option (List SelectExpr) → Bool
  | none => true
  | some cols => validSelectExprList cols

/-- Every `ValArg` under a `Tuple` carries its `:` marker. -/
def validTuple : TupleT → Bool
  | .valTuple es => validValExprList es
  | .subquery _ => true

/-- Every `ValArg` under a list of `Tuple`s carries its `:` marker. -/
def validTupleList : List TupleT → Bool
  | [] => true
  | t :: rest => validTuple t && validTupleList rest

/-- Every `ValArg` under an `Order` carries its `:` marker. -/
def validOrder (o : Order) : Bool := validValExpr o.expr

/-- Every `ValArg` under a list of `Order`s carries its `:` marker. -/
def validOrderList : List Order → Bool
  | [] => true
  | o :: rest => validOrder o && validOrderList rest

/-- Every `ValArg` under an optional `Where` carries its `:` marker. -/
def validWhereOpt : Option Where → Bool
  | none => true
  | some w => validBoolExpr w.expr

/-- Every `ValArg` under an optional `Limit` carries its `:` marker. -/
def validLimitOpt : Option Limit → Bool
  | none => true
  | some l => validValExprOpt l.offset && validValExpr l.rowcount

/-- Every `ValArg` under an `UpdateExpr` carries its `:` marker. -/
def validUpdateExpr (u : UpdateExpr) : Bool := validValExpr u.expr

/-- Every `ValArg` under a list of `UpdateExpr`s carries its `:` marker. -/
def validUpdateExprList : List UpdateExpr → Bool
  | [] => true
  | u :: rest => validUpdateExpr u && validUpdateExprList rest

/-- Every `ValArg` under an optional `OnDup` carries its `:` marker. -/
def validOnDup : Option (List UpdateExpr) → Bool
  | none => true
  | some us => validUpdateExprList us

/-- Whether a `ValExpr` is a numeric literal, i.e. the Go type assertion
`.(NumVal)` succeeds. -/
def isNumVal : ValExpr → Bool
  | .numVal _ => true
  | _ => false

/-- The second half of `Limit.RewriteLimit`, after the offset value has been
determined: assert `Rowcount` is a `NumVal`, parse it, and build the fresh
node.  The Go function returns the pair `(*Limit, error)`; the embedding
additionally returns the input node's value after the call (the function
only ever reads through `node`, so every branch passes it through
unchanged). -/
def rewriteLimitCount (node : Limit) (offset : Int) :
    (Option Limit × Option String) × Option Limit :=
  match node.rowcount with
  | .numVal s =>
    match parseInt64 s with
    | .error e => ((none, some e), some node)
    | .ok count =>
      ((some ⟨none, .numVal (formatInt (wrap64 (offset + count)))⟩, none), some node)
  | _ => ((none, some "Limit.RowCount is not number"), some node)

/-- `Limit.RewriteLimit` from ast.go.  A nil receiver returns nil with no
error.  Otherwise: a nil `Offset` counts as 0; a non-`NumVal` offset is the
error `Limit.offset is not number`; a `NumVal` offset is parsed as a base-10
signed 64-bit integer, propagating the parse error.  The row count is then
handled by `rewriteLimitCount`.  The final component is the input node's
value after the call (never written through). -/
def rewriteLimit : Option Limit → (Option Limit × Option String) × Option Limit
  | none => ((none, none), none)
  | some node =>
    match node.offset with
    | none => rewriteLimitCount node 0
    | some o =>
      match o with
      | .numVal s =>
        match parseInt64 s with
        | .error e => ((none, some e), some node)
        | .ok offset => rewriteLimitCount node offset
      | _ => ((none, some "Limit.offset is not number"), some node)

/-! ### Helper lemmas -/

theorem strDataAppend (s t : String) : (s ++ t).data = s.data ++ t.data := by
  cases s; cases t; rfl

theorem strExt {s t : String} (h : s.data = t.data) : s = t := by
  cases s; cases t; cases h; rfl

theorem strAppendAssoc (a b c : String) : a ++ b ++ c = a ++ (b ++ c) := by
  apply strExt; simp [strDataAppend]

theorem strAppendEmpty (s : String) : s ++ "" = s := by
  apply strExt; simp [strDataAppend]

theorem strMkData (s : String) : String.mk s.data = s := by
  cases s; rfl

theorem isSomeEx {α : Type} {o : Option α} (h : o.isSome = true) : ∃ a, o = some a :=
  Option.isSome_iff_exists.mp h

/-- The source's character test (`!isLetter && !isDigit`) agrees with the
complement of the spec's class `[A-Za-z0-9_]`. -/
theorem notLetterDigitEq (c : Char) : (!(isLetter c) && !(isDigit c)) = !(inIdentClass c) := by
  unfold isLetter isDigit inIdentClass
  by_cases h1 : 'a' ≤ c <;> by_cases h2 : c ≤ 'z' <;> by_cases h3 : 'A' ≤ c <;>
    by_cases h4 : c ≤ 'Z' <;> by_cases h5 : '0' ≤ c <;> by_cases h6 : c ≤ '9' <;>
    by_cases h7 : c = '_' <;> simp [h1, h2, h3, h4, h5, h6, h7]

theorem anyExt {l : List Char} {f g : Char → Bool} (h : ∀ c, f c = g c) :
    l.any f = l.any g := by
  induction l with
  | nil => rfl
  | cons c cs ih => simp [List.any_cons, h, ih]

/-! ### Totality of the serializer on validly constructed trees -/

mutual
theorem fmtBoolIsSome (e : BoolExpr) (h : validBoolExpr e = true) :
    (formatBoolExpr e).isSome = true := by
  cases e with
  | andExpr l r =>
    simp only [validBoolExpr, Bool.and_eq_true] at h
    obtain ⟨a, ha⟩ := isSomeEx (fmtBoolIsSome l h.1)
    obtain ⟨b, hb⟩ := isSomeEx (fmtBoolIsSome r h.2)
    simp [formatBoolExpr, ha, hb]
  | orExpr l r =>
    simp only [validBoolExpr, Bool.and_eq_true] at h
    obtain ⟨a, ha⟩ := isSomeEx (fmtBoolIsSome l h.1)
    obtain ⟨b, hb⟩ := isSomeEx (fmtBoolIsSome r h.2)
    simp [formatBoolExpr, ha, hb]
  | notExpr e =>
    simp only [validBoolExpr] at h
    obtain ⟨a, ha⟩ := isSomeEx (fmtBoolIsSome e h)
    simp [formatBoolExpr, ha]
  | parenBoolExpr e =>
    simp only [validBoolExpr] at h
    obtain ⟨a, ha⟩ := isSomeEx (fmtBoolIsSome e h)
    simp [formatBoolExpr, ha]
  | comparisonExpr op l r =>
    simp only [validBoolExpr, Bool.and_eq_true] at h
    obtain ⟨a, ha⟩ := isSomeEx (fmtValIsSome l h.1)
    obtain ⟨b, hb⟩ := isSomeEx (fmtValIsSome r h.2)
    simp [formatBoolExpr, ha, hb]
  | rangeCond op l lo hi =>
    simp only [validBoolExpr, Bool.and_eq_true] at h
    obtain ⟨a, ha⟩ := isSomeEx (fmtValIsSome l h.1.1)
    obtain ⟨b, hb⟩ := isSomeEx (fmtValIsSome lo h.1.2)
    obtain ⟨c, hc⟩ := isSomeEx (fmtValIsSome hi h.2)
    simp [formatBoolExpr, ha, hb, hc]
  | nullCheck op e =>
    simp only [validBoolExpr] at h
    obtain ⟨a, ha⟩ := isSomeEx (fmtValIsSome e h)
    simp [formatBoolExpr, ha]
  | existsExpr sq => simp [formatBoolExpr]

theorem fmtValIsSome (e : ValExpr) (h : validValExpr e = true) :
    (formatValExpr e).isSome = true := by
  cases e with
  | strVal s => simp [formatValExpr]
  | numVal s => simp [formatValExpr]
  | valArg s =>
    simp only [validValExpr] at h
    cases hd : s.data with
    | nil => rw [validValArg, hd] at h; cases h
    | cons c rest => simp [formatValExpr, hd]
  | nullVal => simp [formatValExpr]
  | colName c => simp [formatValExpr]
  | valTuple es =>
    simp only [validValExpr] at h
    obtain ⟨a, ha⟩ := isSomeEx (fmtValListIsSome "" es h)
    simp [formatValExpr, ha]
  | subquery sq => simp [formatValExpr]
  | binaryExpr op l r =>
    simp only [validValExpr, Bool.and_eq_true] at h
    obtain ⟨a, ha⟩ := isSomeEx (fmtExprIsSome l h.1)
    obtain ⟨b, hb⟩ := isSomeEx (fmtExprIsSome r h.2)
    simp [formatValExpr, ha, hb]
  | unaryExpr op e =>
    simp only [validValExpr] at h
    obtain ⟨a, ha⟩ := isSomeEx (fmtExprIsSome e h)
    simp [formatValExpr, ha]
  | funcExpr name d es =>
    simp only [validValExpr] at h
    obtain ⟨a, ha⟩ := isSomeEx (fmtValListIsSome "" es h)
    simp [formatValExpr, ha]
  | caseExpr eo whens elseO =>
    simp only [validValExpr, Bool.and_eq_true] at h
    obtain ⟨a, ha⟩ := isSomeEx (fmtCaseOperandIsSome eo h.1.1)
    obtain ⟨w, hw⟩ := isSomeEx (fmtWhenListIsSome whens h.1.2)
    obtain ⟨b, hb⟩ := isSomeEx (fmtCaseElseIsSome elseO h.2)
    simp [formatValExpr, ha, hw, hb]

theorem fmtCaseOperandIsSome (eo : Option ValExpr) (h : validValExprOpt eo = true) :
    (formatCaseOperand eo).isSome = true := by
  cases eo with
  | none => simp [formatCaseOperand]
  | some e =>
    simp only [validValExprOpt] at h
    obtain ⟨a, ha⟩ := isSomeEx (fmtValIsSome e h)
    simp [formatCaseOperand, ha]

theorem fmtCaseElseIsSome (eo : Option ValExpr) (h : validValExprOpt eo = true) :
    (formatCaseElse eo).isSome = true := by
  cases eo with
  | none => simp [formatCaseElse]
  | some e =>
    simp only [validValExprOpt] at h
    obtain ⟨a, ha⟩ := isSomeEx (fmtValIsSome e h)
    simp [formatCaseElse, ha]

theorem fmtExprIsSome (e : Expr) (h : validExpr e = true) :
    (formatExpr e).isSome = true := by
  cases e with
  | boolE b =>
    simp only [validExpr] at h
    simpa [formatExpr] using fmtBoolIsSome b h
  | valE v =>
    simp only [validExpr] at h
    simpa [formatExpr] using fmtValIsSome v h
  | likeExpr v =>
    simp only [validExpr] at h
    obtain ⟨a, ha⟩ := isSomeEx (fmtValIsSome v h)
    simp [formatExpr, ha]
  | whereExpr b =>
    simp only [validExpr] at h
    obtain ⟨a, ha⟩ := isSomeEx (fmtBoolIsSome b h)
    simp [formatExpr, ha]

theorem fmtWhenIsSome (w : When) (h : validWhen w = true) :
    (formatWhen w).isSome = true := by
  cases w with
  | mk c v =>
    simp only [validWhen, Bool.and_eq_true] at h
    obtain ⟨a, ha⟩ := isSomeEx (fmtBoolIsSome c h.1)
    obtain ⟨b, hb⟩ := isSomeEx (fmtValIsSome v h.2)
    simp [formatWhen, ha, hb]

theorem fmtWhenListIsSome (ws : List When) (h : validWhenList ws = true) :
    (formatWhenList ws).isSome = true := by
  cases ws with
  | nil => simp [formatWhenList]
  | cons w rest =>
    simp only [validWhenList, Bool.and_eq_true] at h
    obtain ⟨a, ha⟩ := isSomeEx (fmtWhenIsSome w h.1)
    obtain ⟨b, hb⟩ := isSomeEx (fmtWhenListIsSome rest h.2)
    simp [formatWhenList, ha, hb]

theorem fmtValListIsSome (pre : String) (es : List ValExpr) (h : validValExprList es = true) :
    (formatValExprList pre es).isSome = true := by
  cases es with
  | nil => simp [formatValExprList]
  | cons e rest =>
    simp only [validValExprList, Bool.and_eq_true] at h
    obtain ⟨a, ha⟩ := isSomeEx (fmtValIsSome e h.1)
    obtain ⟨b, hb⟩ := isSomeEx (fmtValListIsSome ", " rest h.2)
    simp [formatValExprList, ha, hb]
end

theorem fmtOnOptIsSome (o : Option BoolExpr) (h : validBoolOpt o = true) :
    (formatOnOpt o).isSome = true := by
  cases o with
  | none => simp [formatOnOpt]
  | some b =>
    simp only [validBoolOpt] at h
    obtain ⟨a, ha⟩ := isSomeEx (fmtBoolIsSome b h)
    simp [formatOnOpt, ha]

mutual
theorem fmtTableIsSome (t : TableExpr) (h : validTableExpr t = true) :
    (formatTableExpr t).isSome = true := by
  cases t with
  | aliased e aliasO hintsO => simp [formatTableExpr]
  | paren e =>
    simp only [validTableExpr] at h
    obtain ⟨a, ha⟩ := isSomeEx (fmtTableIsSome e h)
    simp [formatTableExpr, ha]
  | join l js r onO =>
    simp only [validTableExpr, Bool.and_eq_true] at h
    obtain ⟨a, ha⟩ := isSomeEx (fmtTableIsSome l h.1.1)
    obtain ⟨b, hb⟩ := isSomeEx (fmtTableIsSome r h.1.2)
    obtain ⟨c, hc⟩ := isSomeEx (fmtOnOptIsSome onO h.2)
    simp [formatTableExpr, ha, hb, hc]

theorem fmtTableListIsSome (pre : String) (ts : List TableExpr)
    (h : validTableExprList ts = true) : (formatTableExprList pre ts).isSome = true := by
  cases ts with
  | nil => simp [formatTableExprList]
  | cons t rest =>
    simp only [validTableExprList, Bool.and_eq_true] at h
    obtain ⟨a, ha⟩ := isSomeEx (fmtTableIsSome t h.1)
    obtain ⟨b, hb⟩ := isSomeEx (fmtTableListIsSome ", " rest h.2)
    simp [formatTableExprList, ha, hb]
end

theorem fmtSelectIsSome (e : SelectExpr) (h : validSelectExpr e = true) :
    (formatSelectExpr e).isSome = true := by
  cases e with
  | star q => simp [formatSelectExpr]
  | nonStar ex aliasO =>
    simp only [validSelectExpr] at h
    obtain ⟨a, ha⟩ := isSomeEx (fmtExprIsSome ex h)
    simp [formatSelectExpr, ha]

theorem fmtSelectListIsSome (pre : String) (es : List SelectExpr)
    (h : validSelectExprList es = true) : (formatSelectExprList pre es).isSome = true := by
  induction es generalizing pre with
  | nil => simp [formatSelectExprList]
  | cons e rest ih =>
    simp only [validSelectExprList, Bool.and_eq_true] at h
    obtain ⟨a, ha⟩ := isSomeEx (fmtSelectIsSome e h.1)
    obtain ⟨b, hb⟩ := isSomeEx (ih ", " h.2)
    simp [formatSelectExprList, ha, hb]

theorem fmtColumnsIsSome (cols : Option (List SelectExpr)) (h : validColumns cols = true) :
    (formatColumns cols).isSome = true := by
  cases cols with
  | none => simp [formatColumns]
  | some cs =>
    simp only [validColumns] at h
    obtain ⟨a, ha⟩ := isSomeEx (fmtSelectListIsSome "" cs h)
    simp [formatColumns, ha]

theorem fmtTupleIsSome (t : TupleT) (h : validTuple t = true) :
    (formatTuple t).isSome = true := by
  cases t with
  | valTuple es =>
    simp only [validTuple] at h
    obtain ⟨a, ha⟩ := isSomeEx (fmtValListIsSome "" es h)
    simp [formatTuple, ha]
  | subquery sq => simp [formatTuple]

theorem fmtTupleListIsSome (pre : String) (ts : List TupleT)
    (h : validTupleList ts = true) : (formatTupleList pre ts).isSome = true := by
  induction ts generalizing pre with
  | nil => simp [formatTupleList]
  | cons t rest ih =>
    simp only [validTupleList, Bool.and_eq_true] at h
    obtain ⟨a, ha⟩ := isSomeEx (fmtTupleIsSome t h.1)
    obtain ⟨b, hb⟩ := isSomeEx (ih ", " h.2)
    simp [formatTupleList, ha, hb]

theorem fmtOrderIsSome (o : Order) (h : validOrder o = true) :
    (formatOrder o).isSome = true := by
  obtain ⟨a, ha⟩ := isSomeEx (fmtValIsSome o.expr h)
  simp [formatOrder, ha]

theorem fmtOrderListIsSome (pre : String) (os : List Order)
    (h : validOrderList os = true) : (formatOrderList pre os).isSome = true := by
  induction os generalizing pre with
  | nil => simp [formatOrderList]
  | cons o rest ih =>
    simp only [validOrderList, Bool.and_eq_true] at h
    obtain ⟨a, ha⟩ := isSomeEx (fmtOrderIsSome o h.1)
    obtain ⟨b, hb⟩ := isSomeEx (ih ", " h.2)
    simp [formatOrderList, ha, hb]

theorem fmtWhereOptIsSome (w : Option Where) (h : validWhereOpt w = true) :
    (formatWhereOpt w).isSome = true := by
  cases w with
  | none => simp [formatWhereOpt]
  | some wh =>
    simp only [validWhereOpt] at h
    obtain ⟨a, ha⟩ := isSomeEx (fmtBoolIsSome wh.expr h)
    simp [formatWhereOpt, ha]

theorem fmtLimitOptIsSome (l : Option Limit) (h : validLimitOpt l = true) :
    (formatLimitOpt l).isSome = true := by
  cases l with
  | none => simp [formatLimitOpt]
  | some lim =>
    simp only [validLimitOpt, Bool.and_eq_true] at h
    cases lim with
    | mk off rc =>
      cases off with
      | none =>
        obtain ⟨b, hb⟩ := isSomeEx (fmtValIsSome rc h.2)
        simp [formatLimitOpt, hb]
      | some o =>
        have ho : validValExpr o = true := by
          have := h.1; rwa [validValExprOpt] at this
        obtain ⟨a, ha⟩ := isSomeEx (fmtValIsSome o ho)
        obtain ⟨b, hb⟩ := isSomeEx (fmtValIsSome rc h.2)
        simp [formatLimitOpt, ha, hb]

theorem fmtUpdateExprIsSome (u : UpdateExpr) (h : validUpdateExpr u = true) :
    (formatUpdateExpr u).isSome = true := by
  obtain ⟨a, ha⟩ := isSomeEx (fmtValIsSome u.expr h)
  simp [formatUpdateExpr, ha]

theorem fmtUpdateListIsSome (pre : String) (us : List UpdateExpr)
    (h : validUpdateExprList us = true) : (formatUpdateExprList pre us).isSome = true := by
  induction us generalizing pre with
  | nil => simp [formatUpdateExprList]
  | cons u rest ih =>
    simp only [validUpdateExprList, Bool.and_eq_true] at h
    obtain ⟨a, ha⟩ := isSomeEx (fmtUpdateExprIsSome u h.1)
    obtain ⟨b, hb⟩ := isSomeEx (ih ", " h.2)
    simp [formatUpdateExprList, ha, hb]

theorem fmtOnDupIsSome (od : Option (List UpdateExpr)) (h : validOnDup od = true) :
    (formatOnDup od).isSome = true := by
  cases od with
  | none => simp [formatOnDup]
  | some us =>
    simp only [validOnDup] at h
    obtain ⟨a, ha⟩ := isSomeEx (fmtUpdateListIsSome "" us h)
    simp [formatOnDup, ha]

theorem strEmptyAppend (s : String) : "" ++ s = s := by
  apply strExt; simp [strDataAppend]

/-! ### The shape of the list-`Format` loops -/

/-- Any `Format` loop of the Go shape `prefix; emit element; prefix = sep`
renders the elements in order joined by `sep`, with the leading prefix
emitted only when the list is nonempty. -/
theorem listFmtJoin {α : Type} (f : α → Option Out) (fl : String → List α → Option Out)
    (sep : String)
    (hnil : ∀ pre, fl pre [] = some ("", []))
    (hcons : ∀ pre e rest, fl pre (e :: rest) =
      match f e, fl sep rest with
      | some a, some b => some (pre ++ a.1 ++ b.1, a.2 ++ b.2)
      | _, _ => none) :
    ∀ es pre, fl pre es = (collectOuts f es).map (prefJoin pre sep) := by
  intro es
  induction es with
  | nil => intro pre; simp [hnil, collectOuts, prefJoin]
  | cons e rest ih =>
    intro pre
    rw [hcons]
    cases hf : f e with
    | none => simp [collectOuts, hf]
    | some a =>
      rw [ih sep]
      cases hc : collectOuts f rest with
      | none => simp [collectOuts, hf, hc]
      | some l =>
        cases l with
        | nil => simp [collectOuts, hf, hc, prefJoin, sepJoin, strAppendEmpty, strAppendAssoc]
        | cons o ls => simp [collectOuts, hf, hc, prefJoin, sepJoin, strAppendAssoc]

theorem selectListJoin (es : List SelectExpr) (pre : String) :
    formatSelectExprList pre es = (collectOuts formatSelectExpr es).map (prefJoin pre ", ") :=
  listFmtJoin formatSelectExpr formatSelectExprList ", "
    (fun _ => by simp [formatSelectExprList])
    (fun _ _ _ => by simp [formatSelectExprList]) es pre

theorem tableListJoin (es : List TableExpr) (pre : String) :
    formatTableExprList pre es = (collectOuts formatTableExpr es).map (prefJoin pre ", ") :=
  listFmtJoin formatTableExpr formatTableExprList ", "
    (fun _ => by simp [formatTableExprList])
    (fun _ _ _ => by simp [formatTableExprList]) es pre

theorem valListJoin (es : List ValExpr) (pre : String) :
    formatValExprList pre es = (collectOuts formatValExpr es).map (prefJoin pre ", ") :=
  listFmtJoin formatValExpr formatValExprList ", "
    (fun _ => by simp [formatValExprList])
    (fun _ _ _ => by simp [formatValExprList]) es pre

theorem orderListJoin (es : List Order) (pre : String) :
    formatOrderList pre es = (collectOuts formatOrder es).map (prefJoin pre ", ") :=
  listFmtJoin formatOrder formatOrderList ", "
    (fun _ => by simp [formatOrderList])
    (fun _ _ _ => by simp [formatOrderList]) es pre

theorem updateListJoin (es : List UpdateExpr) (pre : String) :
    formatUpdateExprList pre es = (collectOuts formatUpdateExpr es).map (prefJoin pre ", ") :=
  listFmtJoin formatUpdateExpr formatUpdateExprList ", "
    (fun _ => by simp [formatUpdateExprList])
    (fun _ _ _ => by simp [formatUpdateExprList]) es pre

/-- The WHEN loop of `CaseExpr.Format`: each arm's output followed by a
single space, in the original order. -/
theorem whenListTermJoin (ws : List When) :
    formatWhenList ws = (collectOuts formatWhen ws).map (termJoin " ") := by
  induction ws with
  | nil => simp [formatWhenList, collectOuts, termJoin]
  | cons w rest ih =>
    rw [formatWhenList, ih]
    cases hf : formatWhen w with
    | none => simp [collectOuts, hf]
    | some a =>
      cases hc : collectOuts formatWhen rest with
      | none => simp [collectOuts, hf, hc]
      | some l => simp [collectOuts, hf, hc, termJoin]

theorem spaceSplitLoopJoin (es : List SpaceSplitExpr) (e0 : SpaceSplitExpr) (pre : String) :
    formatSpaceSplitExprList pre (e0 :: es) =
      pre ++ sepJoin " " ((e0 :: es).map formatSpaceSplitExpr) := by
  induction es generalizing pre e0 with
  | nil => simp [formatSpaceSplitExprList, sepJoin, strAppendEmpty]
  | cons e1 rest ih =>
    rw [formatSpaceSplitExprList, ih]
    simp [sepJoin, strAppendAssoc]

/-! ### `RewriteLimit` never writes through the input node -/

theorem rewriteLimitCountSelf (node : Limit) (offv : Int) :
    (rewriteLimitCount node offv).2 = some node := by
  unfold rewriteLimitCount
  split
  · split <;> rfl
  · rfl

theorem rewriteLimitCountNodeOnError (node : Limit) (offv : Int)
    (h : ((rewriteLimitCount node offv).1.2).isSome = true) :
    (rewriteLimitCount node offv).1.1 = none := by
  unfold rewriteLimitCount at *
  revert h
  split
  · split <;> simp
  · simp

theorem rewriteLimitCountFresh (node : Limit) (offv : Int) (newNode : Limit)
    (h : (rewriteLimitCount node offv).1.1 = some newNode) : newNode.offset = none := by
  unfold rewriteLimitCount at h
  revert h
  split
  · split
    · intro h; cases h
    · intro h
      simp only [Option.some.injEq] at h
      subst h
      rfl
  · intro h; cases h

/-! ### Claims -/

/-- C1 counterexample: both literals parse as base-10 signed 64-bit integers
(each is `2^63 - 1`), yet the returned `Rowcount` text is `-2` — the result
of Go's wrapping `int64` addition — and not the decimal text of
`offset + count`, which is `18446744073709551614`. -/
theorem C1_counterexample :
    rewriteLimit (some ⟨some (ValExpr.numVal "9223372036854775807"),
                        ValExpr.numVal "9223372036854775807"⟩) =
      ((some ⟨none, ValExpr.numVal "-2"⟩, none),
       some ⟨some (ValExpr.numVal "9223372036854775807"),
             ValExpr.numVal "9223372036854775807"⟩) ∧
    parseInt64 "9223372036854775807" = Except.ok 9223372036854775807 ∧
    formatInt (9223372036854775807 + 9223372036854775807) = "18446744073709551614" ∧
    ("-2" : String) ≠ "18446744073709551614" := by
  refine ⟨rfl, rfl, rfl, by decide⟩

/-- C1 (amended): for every `Limit` whose `Offset` is absent (treated as 0)
or a parseable base-10 signed 64-bit `NumVal`, and whose `Rowcount` is a
parseable base-10 signed 64-bit `NumVal`, `RewriteLimit` returns without
error a new `Limit` whose `Offset` is absent and whose `Rowcount` is the
decimal text of `offset + count` computed in wrapping (two's-complement)
signed 64-bit arithmetic; a nil `Limit` maps to nil with no error. -/
theorem C1_rewriteLimit_amended :
    (rewriteLimit none = ((none, none), none)) ∧
    (∀ cs cnt, parseInt64 cs = Except.ok cnt →
      rewriteLimit (some ⟨none, ValExpr.numVal cs⟩) =
        ((some ⟨none, ValExpr.numVal (formatInt (wrap64 (0 + cnt)))⟩, none),
         some ⟨none, ValExpr.numVal cs⟩)) ∧
    (∀ os cs offv cnt, parseInt64 os = Except.ok offv → parseInt64 cs = Except.ok cnt →
      rewriteLimit (some ⟨some (ValExpr.numVal os), ValExpr.numVal cs⟩) =
        ((some ⟨none, ValExpr.numVal (formatInt (wrap64 (offv + cnt)))⟩, none),
         some ⟨some (ValExpr.numVal os), ValExpr.numVal cs⟩)) := by
  refine ⟨rfl, ?_, ?_⟩
  · intro cs cnt hc
    simp [rewriteLimit, rewriteLimitCount, hc]
  · intro os cs offv cnt ho hc
    simp [rewriteLimit, rewriteLimitCount, ho, hc]

/-- C1 witness: the spec's own example, `Limit{Offset: 10, Rowcount: 20}`
normalizes to `Limit{Offset: absent, Rowcount: 30}`. -/
theorem C1_witness :
    rewriteLimit (some ⟨some (ValExpr.numVal "10"), ValExpr.numVal "20"⟩) =
      ((some ⟨none, ValExpr.numVal "30"⟩, none),
       some ⟨some (ValExpr.numVal "10"), ValExpr.numVal "20"⟩) := by
  have h := C1_rewriteLimit_amended.2.2 "10" "20" 10 20 rfl rfl
  rw [h]
  rfl

/-- C2 counterexample: the error values the code actually returns are
`Limit.offset is not number` and `Limit.RowCount is not number`, not the
claimed `offset is not a number` / `row count is not a number`. -/
theorem C2_counterexample :
    (rewriteLimit (some ⟨some (ValExpr.colName ⟨"x", none⟩), ValExpr.numVal "5"⟩)).1.2 =
      some "Limit.offset is not number" ∧
    (rewriteLimit (some ⟨none, ValExpr.strVal "abc"⟩)).1.2 =
      some "Limit.RowCount is not number" ∧
    ("Limit.offset is not number" : String) ≠ "offset is not a number" ∧
    ("Limit.RowCount is not number" : String) ≠ "row count is not a number" := by
  refine ⟨rfl, rfl, by decide, by decide⟩

/-- C2 (amended): for every non-nil `Limit`: a present non-`NumVal` offset
yields the error `Limit.offset is not number`; a non-`NumVal` row count
(reached when the offset stage succeeded) yields the distinct error
`Limit.RowCount is not number`; a literal that fails base-10 signed 64-bit
parsing propagates the underlying conversion error; and every error case
returns no node. -/
theorem C2_errors_amended :
    (∀ off rc, isNumVal off = false →
      rewriteLimit (some ⟨some off, rc⟩) =
        ((none, some "Limit.offset is not number"), some ⟨some off, rc⟩)) ∧
    (∀ rc, isNumVal rc = false →
      rewriteLimit (some ⟨none, rc⟩) =
        ((none, some "Limit.RowCount is not number"), some ⟨none, rc⟩)) ∧
    (∀ os offv rc, parseInt64 os = Except.ok offv → isNumVal rc = false →
      rewriteLimit (some ⟨some (ValExpr.numVal os), rc⟩) =
        ((none, some "Limit.RowCount is not number"), some ⟨some (ValExpr.numVal os), rc⟩)) ∧
    (∀ os m rc, parseInt64 os = Except.error m →
      rewriteLimit (some ⟨some (ValExpr.numVal os), rc⟩) =
        ((none, some m), some ⟨some (ValExpr.numVal os), rc⟩)) ∧
    (∀ cs m, parseInt64 cs = Except.error m →
      rewriteLimit (some ⟨none, ValExpr.numVal cs⟩) =
        ((none, some m), some ⟨none, ValExpr.numVal cs⟩)) ∧
    (∀ os offv cs m, parseInt64 os = Except.ok offv → parseInt64 cs = Except.error m →
      rewriteLimit (some ⟨some (ValExpr.numVal os), ValExpr.numVal cs⟩) =
        ((none, some m), some ⟨some (ValExpr.numVal os), ValExpr.numVal cs⟩)) ∧
    (("Limit.offset is not number" : String) ≠ "Limit.RowCount is not number") ∧
    (∀ node, ((rewriteLimit (some node)).1.2).isSome = true →
      (rewriteLimit (some node)).1.1 = none) := by
  refine ⟨?_, ?_, ?_, ?_, ?_, ?_, by decide, ?_⟩
  · intro off rc h
    cases off
    case numVal s => simp [isNumVal] at h
    all_goals rfl
  · intro rc h
    cases rc
    case numVal s => simp [isNumVal] at h
    all_goals rfl
  · intro os offv rc hp h
    cases rc
    case numVal s => simp [isNumVal] at h
    all_goals simp [rewriteLimit, rewriteLimitCount, hp]
  · intro os m rc hp
    simp [rewriteLimit, hp]
  · intro cs m hp
    simp [rewriteLimit, rewriteLimitCount, hp]
  · intro os offv cs m ho hc
    simp [rewriteLimit, rewriteLimitCount, ho, hc]
  · intro node h
    rcases node with ⟨off, rc⟩
    cases off with
    | none => exact rewriteLimitCountNodeOnError ⟨none, rc⟩ 0 h
    | some o =>
      cases o
      case numVal s =>
        cases hp : parseInt64 s with
        | error e => simp [rewriteLimit, hp]
        | ok v =>
          simp only [rewriteLimit, hp] at h ⊢
          exact rewriteLimitCountNodeOnError _ v h
      all_goals rfl

/-- C2 witness: a `ColName` offset with a numeric row count produces the
offset error, and the error case returns no node. -/
theorem C2_witness :
    rewriteLimit (some ⟨some (ValExpr.colName ⟨"x", none⟩), ValExpr.numVal "5"⟩) =
      ((none, some "Limit.offset is not number"),
       some ⟨some (ValExpr.colName ⟨"x", none⟩), ValExpr.numVal "5"⟩) :=
  C2_errors_amended.1 (ValExpr.colName ⟨"x", none⟩) (ValExpr.numVal "5") rfl

/-- C9: `RewriteLimit` never mutates the input node: on every error and
success path the input `Limit`'s `Offset` and `Rowcount` are exactly as
they were (the embedding returns the node's value after the call, equal to
the input), and a successful result is a separately built node whose
`Offset` is cleared regardless of the input's fields. -/
theorem C9_rewriteLimit_no_mutation :
    (∀ nodeOpt, (rewriteLimit nodeOpt).2 = nodeOpt) ∧
    (∀ node newNode, (rewriteLimit (some node)).1.1 = some newNode → newNode.offset = none) := by
  constructor
  · intro nodeOpt
    cases nodeOpt with
    | none => rfl
    | some node =>
      rcases node with ⟨off, rc⟩
      cases off with
      | none => exact rewriteLimitCountSelf ⟨none, rc⟩ 0
      | some o =>
        cases o
        case numVal s =>
          cases hp : parseInt64 s with
          | error e => simp [rewriteLimit, hp]
          | ok v => simp [rewriteLimit, hp, rewriteLimitCountSelf]
        all_goals rfl
  · intro node newNode h
    rcases node with ⟨off, rc⟩
    cases off with
    | none => exact rewriteLimitCountFresh ⟨none, rc⟩ 0 newNode h
    | some o =>
      cases o
      case numVal s =>
        cases hp : parseInt64 s with
        | error e => simp [rewriteLimit, hp] at h
        | ok v =>
          simp only [rewriteLimit, hp] at h
          exact rewriteLimitCountFresh _ v newNode h
      all_goals cases h

/-- C9 witness: on a successful concrete rewrite the input node is returned
unchanged and the fresh result node has its offset cleared. -/
theorem C9_witness :
    (rewriteLimit (some ⟨some (ValExpr.numVal "1"), ValExpr.numVal "2"⟩)).2 =
      some ⟨some (ValExpr.numVal "1"), ValExpr.numVal "2"⟩ ∧
    (⟨none, ValExpr.numVal "3"⟩ : Limit).offset = none :=
  ⟨C9_rewriteLimit_no_mutation.1 (some ⟨some (ValExpr.numVal "1"), ValExpr.numVal "2"⟩),
   C9_rewriteLimit_no_mutation.2 ⟨some (ValExpr.numVal "1"), ValExpr.numVal "2"⟩
     ⟨none, ValExpr.numVal "3"⟩ (by rfl)⟩

/-- C3: an identifier rendered through `escape` is backtick-quoted exactly
when its text matches a reserved keyword under case-sensitive exact lookup
or some character falls outside `[A-Za-z0-9_]`, and is emitted bare
otherwise; `order`, `SELECT` and `my-col` quote, `plain_col1` stays bare;
`TableName` and `ColName` escape each part independently and join with a
literal dot. -/
theorem C3_escape_quoting :
    (∀ name, escape name =
      if keywords.contains name || name.data.any (fun c => !(inIdentClass c))
      then "`" ++ name ++ "`" else name) ∧
    escape "order" = "`order`" ∧
    escape "SELECT" = "`SELECT`" ∧
    escape "my-col" = "`my-col`" ∧
    escape "plain_col1" = "plain_col1" ∧
    (∀ n q, formatTableName n (some q) = escape q ++ "." ++ escape n) ∧
    (∀ n, formatTableName n none = escape n) ∧
    (∀ n q, formatColName ⟨n, some q⟩ = escape q ++ "." ++ escape n) ∧
    (∀ n, formatColName ⟨n, none⟩ = escape n) := by
  refine ⟨?_, by decide, by decide, by decide, by decide, ?_, ?_, ?_, ?_⟩
  · intro name
    unfold escape
    have hany : (name.data.any fun ch => !(isLetter ch) && !(isDigit ch)) =
        name.data.any (fun c => !(inIdentClass c)) := anyExt notLetterDigitEq
    cases hk : keywords.contains name with
    | true => rfl
    | false => rw [hany]; rfl
  · intro n q; rfl
  · intro n
    show "" ++ escape n = escape n
    exact strEmptyAppend _
  · intro n q; rfl
  · intro n
    show "" ++ escape n = escape n
    exact strEmptyAppend _

/-- C5: `NewWhere` returns no node when the expression is nil and a node
carrying exactly the type and expression otherwise; rendering an absent
`Where`, `Limit` or `OnDup` appends nothing at all; and when present, each
clause's output starts with its prefix carrying its own leading space
(`" where "` for a WHERE-typed node, `" limit "`, and
`" on duplicate key update "`). -/
theorem C5_absent_clause_omission :
    (∀ typ, newWhere typ none = none) ∧
    (∀ typ e, newWhere typ (some e) = some ⟨typ, e⟩) ∧
    formatWhereOpt none = some ("", []) ∧
    formatLimitOpt none = some ("", []) ∧
    formatOnDup none = some ("", []) ∧
    (∀ w o, formatWhereOpt (some w) = some o → ∃ rest, o.1 = " " ++ w.type ++ " " ++ rest) ∧
    (∀ l o, formatLimitOpt (some l) = some o → ∃ rest, o.1 = " limit " ++ rest) ∧
    (∀ us o, formatOnDup (some us) = some o →
      ∃ rest, o.1 = " on duplicate key update " ++ rest) := by
  refine ⟨fun _ => rfl, fun _ _ => rfl, rfl, rfl, rfl, ?_, ?_, ?_⟩
  · intro w o h
    rw [formatWhereOpt] at h
    cases hf : formatBoolExpr w.expr with
    | none => rw [hf] at h; cases h
    | some a =>
      rw [hf] at h
      injection h with h
      exact ⟨a.1, by rw [← h]⟩
  · intro l o h
    rcases l with ⟨loff, lrc⟩
    cases loff with
    | none =>
      simp only [formatLimitOpt] at h
      cases hb : formatValExpr lrc with
      | none => rw [hb] at h; cases h
      | some b =>
        rw [hb] at h
        injection h with h
        exact ⟨b.1, by rw [← h]⟩
    | some off =>
      simp only [formatLimitOpt] at h
      cases ha : formatValExpr off with
      | none => rw [ha] at h; cases h
      | some a =>
        cases hb : formatValExpr lrc with
        | none => rw [ha, hb] at h; cases h
        | some b =>
          rw [ha, hb] at h
          injection h with h
          refine ⟨a.1 ++ ", " ++ b.1, ?_⟩
          rw [← h]
          simp [strAppendAssoc]
  · intro us o h
    rw [formatOnDup] at h
    cases ha : formatUpdateExprList "" us with
    | none => rw [ha] at h; cases h
    | some a =>
      rw [ha] at h
      injection h with h
      exact ⟨a.1, by rw [← h]⟩

/-- C5 witness: a present WHERE clause's output starts with `" where "`
(the prefix carries its own leading space). -/
theorem C5_witness :
    ∃ rest, ((" where 1 = 2", ([] : List String)) : Out).1 = " " ++ "where" ++ " " ++ rest :=
  C5_absent_clause_omission.2.2.2.2.2.1
    ⟨"where", .comparisonExpr "=" (.numVal "1") (.numVal "2")⟩
    (" where 1 = 2", [])
    (by simp [formatWhereOpt, formatBoolExpr, formatValExpr])

/-- C4: every `Format` operation of every node variant is total on validly
constructed trees: whenever every `ValArg` in the tree carries its leading
`:` marker (the construction-time invariant), rendering returns output and
never hits the panic of `ValArg.Format`'s unconditional slice `node[1:]`.
The `Format` methods not listed here (`Comments`, `IndexHints`, `TableName`,
`ColName`, `ColNames`, `Subquery`, `SimpleTableExpr`, `StarExpr`,
`SpaceSplitExpr(s)`) are embedded as plain functions into `Out` or `String`
because no execution path in them can fail, so their totality holds by
type. -/
theorem C4_format_total :
    (∀ e, validBoolExpr e = true → (formatBoolExpr e).isSome = true) ∧
    (∀ e, validValExpr e = true → (formatValExpr e).isSome = true) ∧
    (∀ e, validExpr e = true → (formatExpr e).isSome = true) ∧
    (∀ w, validWhen w = true → (formatWhen w).isSome = true) ∧
    (∀ ws, validWhenList ws = true → (formatWhenList ws).isSome = true) ∧
    (∀ pre es, validValExprList es = true → (formatValExprList pre es).isSome = true) ∧
    (∀ e, validSelectExpr e = true → (formatSelectExpr e).isSome = true) ∧
    (∀ pre es, validSelectExprList es = true → (formatSelectExprList pre es).isSome = true) ∧
    (∀ cols, validColumns cols = true → (formatColumns cols).isSome = true) ∧
    (∀ t, validTableExpr t = true → (formatTableExpr t).isSome = true) ∧
    (∀ pre ts, validTableExprList ts = true → (formatTableExprList pre ts).isSome = true) ∧
    (∀ t, validTuple t = true → (formatTuple t).isSome = true) ∧
    (∀ vs, validTupleList vs = true → (formatValues vs).isSome = true) ∧
    (∀ o, validOrder o = true → (formatOrder o).isSome = true) ∧
    (∀ os, validOrderList os = true → (formatOrderBy os).isSome = true) ∧
    (∀ es, validValExprList es = true → (formatGroupBy es).isSome = true) ∧
    (∀ w, validWhereOpt w = true → (formatWhereOpt w).isSome = true) ∧
    (∀ l, validLimitOpt l = true → (formatLimitOpt l).isSome = true) ∧
    (∀ u, validUpdateExpr u = true → (formatUpdateExpr u).isSome = true) ∧
    (∀ us, validUpdateExprList us = true → (formatUpdateExprs us).isSome = true) ∧
    (∀ od, validOnDup od = true → (formatOnDup od).isSome = true) :=
  ⟨fmtBoolIsSome, fmtValIsSome, fmtExprIsSome, fmtWhenIsSome, fmtWhenListIsSome,
   fmtValListIsSome, fmtSelectIsSome, fmtSelectListIsSome, fmtColumnsIsSome,
   fmtTableIsSome, fmtTableListIsSome, fmtTupleIsSome,
   fun vs h => fmtTupleListIsSome "values " vs h, fmtOrderIsSome,
   fun os h => fmtOrderListIsSome " order by " os h,
   fun es h => fmtValListIsSome " group by " es h, fmtWhereOptIsSome, fmtLimitOptIsSome,
   fmtUpdateExprIsSome, fun us h => fmtUpdateListIsSome "" us h, fmtOnDupIsSome⟩

/-- C4 witness: a `ValArg` with its `:` marker renders, and so does a
`Limit` whose offset is such a `ValArg`. -/
theorem C4_witness :
    (formatValExpr (ValExpr.valArg ":v1")).isSome = true ∧
    (formatLimitOpt (some ⟨some (ValExpr.valArg ":off"), ValExpr.numVal "5"⟩)).isSome = true :=
  ⟨C4_format_total.2.1 (ValExpr.valArg ":v1")
     (by simp only [validValExpr, validValArg]; decide),
   C4_format_total.2.2.2.2.2.2.2.2.2.2.2.2.2.2.2.2.2.1
     (some ⟨some (ValExpr.valArg ":off"), ValExpr.numVal "5"⟩)
     (by simp only [validLimitOpt, validValExprOpt, validValExpr, validValArg]; decide)⟩

/-- C6: the list-valued nodes `SelectExprs`, `TableExprs`, `ValExprs`,
`GroupBy`, `OrderBy` and `UpdateExprs` render their elements in order joined
by exactly `", "` with no leading or trailing separator (`GroupBy`/`OrderBy`
precede a nonempty list with their clause prefix); `SpaceSplitExprs` joins
with a single space; a three-element select list renders as `a, b, c`. -/
theorem C6_list_separators :
    (∀ es, formatSelectExprs es = (collectOuts formatSelectExpr es).map (prefJoin "" ", ")) ∧
    (∀ es, formatTableExprs es = (collectOuts formatTableExpr es).map (prefJoin "" ", ")) ∧
    (∀ es, formatValExprs es = (collectOuts formatValExpr es).map (prefJoin "" ", ")) ∧
    (∀ es, formatGroupBy es = (collectOuts formatValExpr es).map (prefJoin " group by " ", ")) ∧
    (∀ os, formatOrderBy os = (collectOuts formatOrder os).map (prefJoin " order by " ", ")) ∧
    (∀ us, formatUpdateExprs us = (collectOuts formatUpdateExpr us).map (prefJoin "" ", ")) ∧
    (∀ es, formatSpaceSplitExprs es = sepJoin " " (es.map formatSpaceSplitExpr)) ∧
    formatSelectExprs [.nonStar (.valE (.colName ⟨"a", none⟩)) none,
      .nonStar (.valE (.colName ⟨"b", none⟩)) none,
      .nonStar (.valE (.colName ⟨"c", none⟩)) none] = some ("a, b, c", []) := by
  refine ⟨fun es => selectListJoin es "", fun es => tableListJoin es "",
    fun es => valListJoin es "", fun es => valListJoin es " group by ",
    fun os => orderListJoin os " order by ", fun us => updateListJoin us "", ?_, ?_⟩
  · intro es
    cases es with
    | nil => rfl
    | cons e rest => exact (spaceSplitLoopJoin rest e "").trans (strEmptyAppend _)
  · simp only [formatSelectExprs, formatSelectExprList, formatSelectExpr, formatExpr,
      formatValExpr, formatColName]
    decide

/-- C7: a `CaseExpr` renders as `case `, then the simple-case operand plus
a space when present, then each WHEN arm rendered as
`when <cond> then <val>` each followed by a single space in the original
order of `Whens`, then `else <value> ` when present, then `end`. -/
theorem C7_case_rendering :
    (∀ c v a b, formatBoolExpr c = some a → formatValExpr v = some b →
      formatWhen ⟨c, v⟩ = some ("when " ++ a.1 ++ " then " ++ b.1, a.2 ++ b.2)) ∧
    (∀ ws, formatWhenList ws = (collectOuts formatWhen ws).map (termJoin " ")) ∧
    (∀ whens w, formatWhenList whens = some w →
      formatValExpr (ValExpr.caseExpr none whens none) =
        some ("case " ++ w.1 ++ "end", w.2)) ∧
    (∀ e whens v a w b, formatValExpr e = some a → formatWhenList whens = some w →
        formatValExpr v = some b →
      formatValExpr (ValExpr.caseExpr (some e) whens (some v)) =
        some ("case " ++ (a.1 ++ " ") ++ w.1 ++ ("else " ++ b.1 ++ " ") ++ "end",
          a.2 ++ w.2 ++ b.2)) := by
  refine ⟨?_, whenListTermJoin, ?_, ?_⟩
  · intro c v a b hc hv
    simp [formatWhen, hc, hv]
  · intro whens w hw
    simp [formatValExpr, formatCaseOperand, formatCaseElse, hw, strAppendEmpty]
  · intro e whens v a w b he hw hv
    simp [formatValExpr, formatCaseOperand, formatCaseElse, he, hw, hv]

/-- C7 witness: a searched CASE with a single WHEN arm renders with the arm
in place followed by a single space. -/
theorem C7_witness :
    formatValExpr (ValExpr.caseExpr none
      [⟨.comparisonExpr "=" (.numVal "1") (.numVal "2"), .colName ⟨"a", none⟩⟩] none) =
      some ("case when 1 = 2 then a end", []) := by
  have h := C7_case_rendering.2.2.1
    [⟨.comparisonExpr "=" (.numVal "1") (.numVal "2"), .colName ⟨"a", none⟩⟩]
    ("when 1 = 2 then a ", [])
    (by simp only [formatWhenList, formatWhen, formatBoolExpr, formatValExpr, formatColName]
        decide)
  rw [h]
  rfl

/-- C8: `ValArg.Format` strips the leading `:` marker byte of the stored
text and records the remainder through the buffer's dedicated `WriteArg`
argument sink — the name appears in the ordered bind-variable list and no
literal text is spliced into the output. -/
theorem C8_valarg_sink :
    ∀ name, formatValExpr (.valArg (":" ++ name)) = some ("", [name]) := by
  intro name
  have hd : (":" ++ name).data = ':' :: name.data := by
    rw [strDataAppend]
    rfl
  simp [formatValExpr, hd, strMkData]

/-- C10: `StarExpr.Format` emits a present qualifier verbatim followed by
`.*`, never applying the `escape` operation: a qualifier that is a reserved
keyword (`order`) or contains a character outside `[A-Za-z0-9_]` (`my-col`)
is emitted bare, unlike the independently escaped parts of
`TableName`/`ColName`. -/
theorem C10_star_qualifier_verbatim :
    (∀ q, formatSelectExpr (.star (some q)) = some (q ++ "." ++ "*", [])) ∧
    formatSelectExpr (.star none) = some ("*", []) ∧
    formatSelectExpr (.star (some "order")) = some ("order.*", []) ∧
    escape "order" = "`order`" ∧
    formatSelectExpr (.star (some "my-col")) = some ("my-col.*", []) ∧
    escape "my-col" = "`my-col`" :=
  ⟨fun _ => rfl, rfl, rfl, by decide, rfl, by decide⟩

end Saashard
